import Mathlib

set_option maxHeartbeats 1000000

/-! Shallow embedding of the arxiv-data processing pipeline:
src/processing/clean_arxiv_jsonl.py and
src/processing/ingest_to_elasticsearch.py.

Dynamic Python values decoded from JSON are modelled by the inductive
type Json below; dynamic attribute and type errors are surfaced through
Except PyErr. The json.loads parser, the parsedate_to_datetime date
parser and datetime.now are stdlib collaborators and are passed in as
function parameters. -/

/-- JSON values as decoded by json.loads: null, booleans, numbers
(integral in this model), strings, arrays, and objects given as
key-value lists in insertion order. Python None is Json.null. -/
inductive Json : Type where
  | null : Json
  | bool : Bool → Json
  | num : Int → Json
  | str : String → Json
  | arr : List Json → Json
  | obj : List (String × Json) → Json

/-- A decoded JSON object / Python dict, as a key-value list. -/
abbrev Obj : Type := List (String × Json)

/-- Errors raised by the dynamic operations the pipeline uses. -/
inductive PyErr : Type where
  | attributeError : PyErr
  | typeError : PyErr
deriving Repr, DecidableEq

/-- Key lookup in a decoded JSON object. json.loads keeps the last
binding of a duplicated key, so the scan prefers the rightmost match. -/
def getField : Obj → String → Option Json
  | [], _ => none
  | p :: rest, k =>
    match getField rest k with
    | some v => some v
    | none => if p.1 = k then some p.2 else none

/-- Python dict item assignment: overwrite the value when the key is
present (keeping its position), append the binding otherwise. -/
def setField (fields : Obj) (k : String) (v : Json) : Obj :=
  if (getField fields k).isSome then
    fields.map (fun p => if p.1 = k then (p.1, v) else p)
  else fields ++ [(k, v)]

/-- Python truthiness of a decoded JSON value. -/
def truthy : Json → Bool
  | .null => false
  | .bool b => b
  | .num n => n != 0
  | .str s => !s.isEmpty
  | .arr xs => !xs.isEmpty
  | .obj fs => !fs.isEmpty

/-- Whether a value is a Python str. -/
def isStrB : Json → Bool
  | .str _ => true
  | _ => false

/-- ASCII whitespace, the characters str.strip and str.split treat as
separators. -/
def isPySpace (c : Char) : Bool :=
  c = ' ' || c = '\t' || c = '\n' || c = '\r' || c = Char.ofNat 11 || c = Char.ofNat 12

/-- Python str.strip with no arguments: drop leading and trailing
whitespace. -/
def pyStrip (s : String) : String :=
  String.mk (((s.toList.dropWhile isPySpace).reverse.dropWhile isPySpace).reverse)

def pySplitGo : List Char → List Char → List String
  | acc, [] => if acc.isEmpty then [] else [String.mk acc.reverse]
  | acc, c :: cs =>
    if isPySpace c then
      if acc.isEmpty then pySplitGo [] cs
      else String.mk acc.reverse :: pySplitGo [] cs
    else pySplitGo (c :: acc) cs

/-- Python str.split with no arguments: split on runs of whitespace,
discarding empty pieces. -/
def pySplit (s : String) : List String :=
  pySplitGo [] s.toList

/-- Keys of a dict in insertion order, first occurrence kept. -/
def firstKeys : Obj → List String
  | [] => []
  | p :: rest => p.1 :: (firstKeys rest).filter (fun k => k != p.1)

/-- Python iteration over a decoded JSON value: lists yield their
elements, strings yield one-character strings, dicts yield their keys;
any other value raises TypeError. -/
def pyIter : Json → Except PyErr (List Json)
  | .arr xs => .ok xs
  | .str s => .ok (s.toList.map (fun c => .str (String.mk [c])))
  | .obj fs => .ok ((firstKeys fs).map (fun k => .str k))
  | _ => .error .typeError

/-- The str check that " ".join performs on every item: a non-string
item raises TypeError. -/
def pyStrList : List Json → Except PyErr (List String)
  | [] => .ok []
  | .str s :: rest => (pyStrList rest).map (fun l => s :: l)
  | _ :: _ => .error .typeError

/-- Python " ".join(xs): every element must be a string; the strings
are joined with single spaces. -/
def pyJoinSpace (xs : List Json) : Except PyErr String :=
  (pyStrList xs).map (fun l => String.intercalate " " l)

/-- record.get(k) with no default: a missing key gives Python None. -/
def pyGet (fs : Obj) (k : String) : Json :=
  (getField fs k).getD .null

/-- record.get(k, d). -/
def pyGetD (fs : Obj) (k : String) (d : Json) : Json :=
  (getField fs k).getD d

/-- The .strip() call on a dynamic value: only str has that attribute. -/
def pyStripJ : Json → Except PyErr String
  | .str s => .ok (pyStrip s)
  | _ => .error .attributeError

/-- The .split() call on a dynamic value: only str has that attribute. -/
def pySplitJ : Json → Except PyErr (List String)
  | .str s => .ok (pySplit s)
  | _ => .error .attributeError

/-- One element of the authors comprehension in clean_record:
" ".join([p for p in author if p]). -/
def author_join (author : Json) : Except PyErr Json := do
  let parts ← pyIter author
  let s ← pyJoinSpace (parts.filter truthy)
  pure (Json.str s)

/-- The dict literal clean_record returns on success. -/
def mkCleaned (idv : Json) (title abstract : String) (cats : List String)
    (authors : List Json) (versions update_date submitter journal_ref doi : Json) : Obj :=
  [("id", idv), ("title", .str title), ("abstract", .str abstract),
   ("categories", .arr (cats.map .str)), ("authors", .arr authors),
   ("versions", versions), ("update_date", update_date),
   ("submitter", submitter), ("journal_ref", journal_ref), ("doi", doi)]

/-- Translation of clean_record from src/processing/clean_arxiv_jsonl.py.
The fallible field computations are sequenced in the evaluation order of
the Python dict literal (the infallible .get calls are passed directly
to the result), so the first dynamic error raised is the one surfaced.
A non-dict argument raises AttributeError at the first .get call. -/
def clean_record : Json → Except PyErr Obj
  | .obj fs => do
    let title ← pyStripJ (pyGetD fs "title" (.str ""))
    let abstract ← pyStripJ (pyGetD fs "abstract" (.str ""))
    let cats ← pySplitJ (pyGetD fs "categories" (.str ""))
    let entries ← pyIter (pyGetD fs "authors_parsed" (.arr []))
    let authors ← entries.mapM author_join
    pure (mkCleaned (pyGet fs "id") title abstract cats authors
      (pyGetD fs "versions" (.arr [])) (pyGet fs "update_date")
      (pyGet fs "submitter") (pyGet fs "journal-ref") (pyGet fs "doi"))
  | _ => .error .attributeError

example : clean_record (.obj []) =
    .ok (mkCleaned .null "" "" [] [] (.arr []) .null .null .null .null) := by rfl

example : clean_record (.obj [("title", .null)]) = .error .attributeError := by rfl

example : clean_record (.obj [("authors_parsed", .arr [.arr [.str "Doe", .str "J", .str ""]])]) =
    .ok (mkCleaned .null "" "" [] [.str "Doe J"] (.arr []) .null .null .null .null) := by rfl

example : clean_record (.obj [("categories", .str "cs.AI cs.LG"), ("title", .str "  Hi ")]) =
    .ok (mkCleaned .null "Hi" "" ["cs.AI", "cs.LG"] [] (.arr []) .null .null .null .null) := by rfl

/-! The cleaning loop of clean_jsonl. The json.loads parser is a
parameter; a none result models json.JSONDecodeError. -/

def cleanLoop (parse : String → Option Json) (start : Nat) : Nat → List String → List Obj × Nat
  | _, [] => ([], 0)
  | i, line :: rest =>
    if i < start then cleanLoop parse start (i + 1) rest
    else
      match parse line with
      | none => cleanLoop parse start (i + 1) rest
      | some raw =>
        match clean_record raw with
        | .error _ => cleanLoop parse start (i + 1) rest
        | .ok cleaned =>
          let r := cleanLoop parse start (i + 1) rest
          (cleaned :: r.1, r.2 + 1)

/-- Translation of clean_jsonl from clean_arxiv_jsonl.py: the cleaned
records written to the output file, in order, and the final
total_processed counter. Lines with index below start_line are skipped
before parsing; a json.JSONDecodeError and any error raised by
clean_record are caught per line and the loop continues. -/
def clean_jsonl (parse : String → Option Json) (lines : List String) (start_line : Nat) :
    List Obj × Nat :=
  cleanLoop parse start_line 0 lines

/-! Serialization: json.dump(cleaned, fout, ensure_ascii=False) followed
by a newline, per record. -/

def hexDigit (n : Nat) : Char :=
  if n < 10 then Char.ofNat (48 + n) else Char.ofNat (87 + n)

def escChar (c : Char) : String :=
  if c = '"' then "\\\""
  else if c = '\\' then "\\\\"
  else if c = '\n' then "\\n"
  else if c = '\t' then "\\t"
  else if c = '\r' then "\\r"
  else if c.toNat = 8 then "\\b"
  else if c.toNat = 12 then "\\f"
  else if c.toNat < 32 then "\\u00" ++ String.mk [hexDigit (c.toNat / 16), hexDigit (c.toNat % 16)]
  else String.mk [c]

/-- JSON string literal as json.dump writes it with ensure_ascii=False. -/
def pyDumpStr (s : String) : String :=
  "\"" ++ String.join (s.toList.map escChar) ++ "\""

mutual

/-- json.dump with default separators: ", " between items and ": "
between a key and its value. -/
def pyDump : Json → String
  | .null => "null"
  | .bool true => "true"
  | .bool false => "false"
  | .num n => toString n
  | .str s => pyDumpStr s
  | .arr xs => "[" ++ String.intercalate ", " (pyDumpList xs) ++ "]"
  | .obj fs => "\x7b" ++ String.intercalate ", " (pyDumpFields fs) ++ "\x7d"

def pyDumpList : List Json → List String
  | [] => []
  | x :: xs => pyDump x :: pyDumpList xs

def pyDumpFields : List (String × Json) → List String
  | [] => []
  | p :: ps => (pyDumpStr p.1 ++ ": " ++ pyDump p.2) :: pyDumpFields ps

end

/-- The bytes one cleaning run writes to the output file: each cleaned
record serialized by json.dump followed by a newline character. -/
def cleanOutput (parse : String → Option Json) (lines : List String) (start_line : Nat) : String :=
  String.join (((clean_jsonl parse lines start_line).1).map (fun r => pyDump (.obj r) ++ "\n"))

/-! normalize_dates and load_jsonl_lines from ingest_to_elasticsearch.py. -/

/-- Python item assignment record[k] = v: only a dict accepts a string
key; every other decoded value raises TypeError. -/
def setItem : Json → String → Json → Except PyErr Obj
  | .obj fs, k, v => .ok (setField fs k v)
  | _, _, _ => .error .typeError

/-- The try body of normalize_dates for one element of the versions
list: when the element is a dict whose created field is a string, the
date is reparsed; parseDate models parsedate_to_datetime followed by
isoformat, with none modelling a parse failure. Every error raised
inside the body (AttributeError of .get on a non-dict element, the
parse failure) is caught by the except handler, leaving the element
unchanged. -/
def normalize_entry (parseDate : String → Option String) (v : Json) : Json :=
  match v with
  | .obj fv =>
    match getField fv "created" with
    | some (.str s) =>
      match parseDate s with
      | some iso => .obj (setField fv "created" (.str iso))
      | none => v
    | _ => v
  | _ => v

/-- Translation of normalize_dates. The for statement over
record[versions] sits outside the try handler, so a versions value that
is not iterable (null, a bool or a number) raises TypeError out of the
function. Iterating a string or a dict yields fresh strings, whose .get
raises AttributeError inside the handler, leaving the record unchanged. -/
def normalize_dates (parseDate : String → Option String) (record : Obj) : Except PyErr Obj :=
  match getField record "versions" with
  | none => .ok record
  | some (.arr vs) => .ok (setField record "versions" (.arr (vs.map (normalize_entry parseDate))))
  | some (.str _) => .ok record
  | some (.obj _) => .ok record
  | some _ => .error .typeError

def loadLoop (parse : String → Option Json) (parseDate : String → Option String)
    (now : String) (start : Nat) : Nat → List String → List Obj × Option PyErr
  | _, [] => ([], none)
  | i, line :: rest =>
    if i < start then loadLoop parse parseDate now start (i + 1) rest
    else
      match parse line with
      | none => loadLoop parse parseDate now start (i + 1) rest
      | some record =>
        match setItem record "__ingest_timestamp" (.str now) with
        | .error e => ([], some e)
        | .ok rec1 =>
          match normalize_dates parseDate rec1 with
          | .error e => ([], some e)
          | .ok rec2 =>
            let r := loadLoop parse parseDate now start (i + 1) rest
            (rec2 :: r.1, r.2)

/-- Translation of load_jsonl_lines: the records the generator yields,
in order, and the error terminating it early, if any. Only
json.JSONDecodeError is caught per line; the timestamp assignment and
normalize_dates run outside any handler, so their errors escape the
generator. The ingest timestamp datetime.now().isoformat() is the
parameter now. -/
def load_jsonl_lines (parse : String → Option Json) (parseDate : String → Option String)
    (now : String) (lines : List String) (start_line : Nat) : List Obj × Option PyErr :=
  loadLoop parse parseDate now start_line 0 lines

/-! The batching loop of main in ingest_to_elasticsearch.py. -/

def runBatchesGo (B : Int) : List α → List α → List (List α)
  | acc, [] => if acc.isEmpty then [] else [acc]
  | acc, r :: rs =>
    let acc' := acc ++ [r]
    if B ≤ (acc'.length : Int) then acc' :: runBatchesGo B [] rs
    else runBatchesGo B acc' rs

/-- The batches main hands to bulk_ingest for a given record sequence:
a record is appended, the batch is flushed as soon as
len(batch) >= batch_size, and a nonempty partial batch is flushed after
the loop. main performs no validation of batch_size. -/
def runBatches (records : List α) (batch_size : Int) : List (List α) :=
  runBatchesGo batch_size [] records

/-- The batches flushed when the record generator raises before the
loop ends: the trailing partial batch is never flushed. -/
def runBatchesGoNoFinal (B : Int) : List α → List α → List (List α)
  | _, [] => []
  | acc, r :: rs =>
    let acc' := acc ++ [r]
    if B ≤ (acc'.length : Int) then acc' :: runBatchesGoNoFinal B [] rs
    else runBatchesGoNoFinal B acc' rs

/-- One ingestion run of main: the batches bulk-written and the error
aborting the run, if any. When load_jsonl_lines raises mid-stream, the
batches already full were written and the final flush is skipped. -/
def ingest_writes (parse : String → Option Json) (parseDate : String → Option String)
    (now : String) (lines : List String) (batch_size : Int) (start_line : Nat) :
    List (List Obj) × Option PyErr :=
  let r := load_jsonl_lines parse parseDate now lines start_line
  match r.2 with
  | none => (runBatches r.1 batch_size, none)
  | some e => (runBatchesGoNoFinal batch_size [] r.1, some e)

/-! Concrete scaffolding used by witnesses and counterexamples: a small
parser and date parser with explicitly enumerated behaviour. -/

/-- A concrete json.loads stand-in for concrete inputs: two well-formed
records, one line decoding to a bare number, everything else a decode
failure. -/
def demoParse : String → Option Json := fun s =>
  if s = "A" then some (.obj [("id", .str "a1")])
  else if s = "B" then some (.obj [("id", .str "b2"), ("versions",
    .arr [.obj [("version", .str "v1"), ("created", .str "Mon, 2 Jan 2023 10:00:00 GMT")]])])
  else if s = "N" then some (.num 5)
  else none

/-- A concrete date parser knowing one RFC-2822 date. -/
def demoDate : String → Option String := fun s =>
  if s = "Mon, 2 Jan 2023 10:00:00 GMT" then some "2023-01-02T10:00:00+00:00" else none

example : load_jsonl_lines demoParse demoDate "T" ["A", "N", "B"] 0 =
    ([[("id", .str "a1"), ("__ingest_timestamp", .str "T")]], some .typeError) := by rfl

example : load_jsonl_lines demoParse demoDate "T" ["A", "B"] 0 =
    ([[("id", .str "a1"), ("__ingest_timestamp", .str "T")],
      [("id", .str "b2"), ("versions",
        .arr [.obj [("version", .str "v1"), ("created", .str "2023-01-02T10:00:00+00:00")]]),
       ("__ingest_timestamp", .str "T")]], none) := by rfl

example : runBatches [1, 2, 3] (2 : Int) = [[1, 2], [3]] := by rfl

example : runBatches [1, 2] (0 : Int) = [[1], [2]] := by rfl

/-! Helper lemmas. -/

/-- The ten source keys clean_record reads. -/
def sourceKeys : List String :=
  ["id", "title", "abstract", "categories", "authors_parsed", "versions",
   "update_date", "submitter", "journal-ref", "doi"]

/-- The ten keys of every CleanedRecord, in output order. -/
def outputKeys : List String :=
  ["id", "title", "abstract", "categories", "authors", "versions",
   "update_date", "submitter", "journal_ref", "doi"]

@[simp] theorem ok_bind {α β : Type} (a : α) (f : α → Except PyErr β) :
    (Except.ok a : Except PyErr α) >>= f = f a := rfl

theorem except_bind_ok {α β : Type} {x : Except PyErr α} {f : α → Except PyErr β} {b : β}
    (h : x >>= f = .ok b) : ∃ a, x = .ok a ∧ f a = .ok b := by
  cases x with
  | ok a => exact ⟨a, rfl, h⟩
  | error e => exact Except.noConfusion h

theorem clean_record_obj_ok {fs : Obj} {c : Obj} (h : clean_record (.obj fs) = .ok c) :
    ∃ t a cs au, c = mkCleaned (pyGet fs "id") t a cs au (pyGetD fs "versions" (.arr []))
      (pyGet fs "update_date") (pyGet fs "submitter") (pyGet fs "journal-ref")
      (pyGet fs "doi") := by
  simp only [clean_record] at h
  obtain ⟨t, ht, h⟩ := except_bind_ok h
  obtain ⟨a, ha, h⟩ := except_bind_ok h
  obtain ⟨cs, hcs, h⟩ := except_bind_ok h
  obtain ⟨es, hes, h⟩ := except_bind_ok h
  obtain ⟨au, hau, h⟩ := except_bind_ok h
  have h2 : Except.ok (ε := PyErr) (mkCleaned (pyGet fs "id") t a cs au
      (pyGetD fs "versions" (.arr [])) (pyGet fs "update_date") (pyGet fs "submitter")
      (pyGet fs "journal-ref") (pyGet fs "doi")) = .ok c := h
  injection h2 with h2
  exact ⟨t, a, cs, au, h2.symm⟩

/-- Every successful clean_record result carries exactly the ten output
keys, in order. -/
theorem clean_record_ok_keys {j : Json} {c : Obj} (h : clean_record j = .ok c) :
    c.map Prod.fst = outputKeys := by
  cases j with
  | obj fs =>
    obtain ⟨t, a, cs, au, rfl⟩ := clean_record_obj_ok h
    rfl
  | null => exact Except.noConfusion h
  | bool b => exact Except.noConfusion h
  | num n => exact Except.noConfusion h
  | str s => exact Except.noConfusion h
  | arr xs => exact Except.noConfusion h

theorem isStrB_eq {p : Json} (h : isStrB p = true) : ∃ s, p = .str s := by
  cases p with
  | str s => exact ⟨s, rfl⟩
  | null => exact Bool.noConfusion h
  | bool b => exact Bool.noConfusion h
  | num n => exact Bool.noConfusion h
  | arr xs => exact Bool.noConfusion h
  | obj fs => exact Bool.noConfusion h

theorem pyStripJ_ok {v : Json} (h : isStrB v = true) : ∃ r, pyStripJ v = .ok r := by
  obtain ⟨s, rfl⟩ := isStrB_eq h
  exact ⟨pyStrip s, rfl⟩

theorem pySplitJ_ok {v : Json} (h : isStrB v = true) : ∃ r, pySplitJ v = .ok r := by
  obtain ⟨s, rfl⟩ := isStrB_eq h
  exact ⟨pySplit s, rfl⟩

theorem pyStrList_ok : ∀ (l : List Json), (∀ p ∈ l, isStrB p = true) →
    ∃ r, pyStrList l = .ok r := by
  intro l
  induction l with
  | nil => exact fun _ => ⟨[], rfl⟩
  | cons p rest ih =>
    intro h
    obtain ⟨s, rfl⟩ := isStrB_eq (h p (by simp))
    obtain ⟨r, hr⟩ := ih (fun q hq => h q (by simp [hq]))
    exact ⟨s :: r, by simp [pyStrList, hr, Except.map]⟩

theorem pyJoinSpace_ok {l : List Json} (h : ∀ p ∈ l, isStrB p = true) :
    ∃ s, pyJoinSpace l = .ok s := by
  obtain ⟨r, hr⟩ := pyStrList_ok l h
  exact ⟨String.intercalate " " r, by simp [pyJoinSpace, hr, Except.map]⟩

/-- Trust check the authors comprehension needs for one author entry:
the entry is iterable and its truthy parts are strings. -/
def entryOkB : Json → Bool
  | .arr parts => parts.all (fun p => !truthy p || isStrB p)
  | .str _ => true
  | .obj _ => true
  | _ => false

/-- Whatever the authors_parsed value iterates to, every element joins. -/
def authorsOkB : Json → Bool
  | .arr entries => entries.all entryOkB
  | .str _ => true
  | .obj _ => true
  | _ => false

/-- The hypotheses under which clean_record cannot raise: the three
string-typed fields are strings (or absent, the defaults being strings)
and the authors_parsed value is iterable with joinable elements. -/
def wellTypedB (fs : Obj) : Bool :=
  isStrB (pyGetD fs "title" (.str "")) &&
  isStrB (pyGetD fs "abstract" (.str "")) &&
  isStrB (pyGetD fs "categories" (.str "")) &&
  authorsOkB (pyGetD fs "authors_parsed" (.arr []))

theorem author_join_ok : ∀ (a : Json), entryOkB a = true → ∃ r, author_join a = .ok r := by
  intro a h
  cases a with
  | arr parts =>
    have hall : ∀ x ∈ parts, truthy x = false ∨ isStrB x = true := by
      simpa [entryOkB] using h
    have hstr : ∀ p ∈ parts.filter truthy, isStrB p = true := by
      intro p hp
      rw [List.mem_filter] at hp
      rcases hall p hp.1 with h1 | h2
      · rw [hp.2] at h1; exact Bool.noConfusion h1
      · exact h2
    obtain ⟨s, hs⟩ := pyJoinSpace_ok hstr
    refine ⟨.str s, ?_⟩
    simp only [author_join, pyIter, ok_bind]
    rw [hs]
    rfl
  | str s =>
    have hstr : ∀ p ∈ (s.toList.map
        (fun c => Json.str (String.mk [c]))).filter truthy, isStrB p = true := by
      intro p hp
      rw [List.mem_filter] at hp
      obtain ⟨c, _, rfl⟩ := List.mem_map.mp hp.1
      rfl
    obtain ⟨r, hr⟩ := pyJoinSpace_ok hstr
    refine ⟨.str r, ?_⟩
    simp only [author_join, pyIter, ok_bind]
    rw [hr]
    rfl
  | obj fsv =>
    have hstr : ∀ p ∈ ((firstKeys fsv).map (fun k => Json.str k)).filter truthy,
        isStrB p = true := by
      intro p hp
      rw [List.mem_filter] at hp
      obtain ⟨c, _, rfl⟩ := List.mem_map.mp hp.1
      rfl
    obtain ⟨r, hr⟩ := pyJoinSpace_ok hstr
    refine ⟨.str r, ?_⟩
    simp only [author_join, pyIter, ok_bind]
    rw [hr]
    rfl
  | null => exact Bool.noConfusion h
  | bool b => exact Bool.noConfusion h
  | num n => exact Bool.noConfusion h

theorem mapM_loop_ok {α β : Type} (f : α → Except PyErr β) :
    ∀ (l : List α) (acc : List β), (∀ a ∈ l, ∃ b, f a = .ok b) →
      ∃ bs, List.mapM.loop f l acc = .ok (acc.reverse ++ bs) := by
  intro l
  induction l with
  | nil => exact fun acc _ => ⟨[], by simp only [List.mapM.loop, List.append_nil]; rfl⟩
  | cons a rest ih =>
    intro acc h
    obtain ⟨b, hb⟩ := h a (by simp)
    obtain ⟨bs, hbs⟩ := ih (b :: acc) (fun x hx => h x (by simp [hx]))
    refine ⟨b :: bs, ?_⟩
    simp only [List.mapM.loop, hb, ok_bind]
    rw [hbs]
    simp

theorem mapM_ok {α β : Type} (f : α → Except PyErr β) (l : List α)
    (h : ∀ a ∈ l, ∃ b, f a = .ok b) : ∃ bs, l.mapM f = .ok bs := by
  obtain ⟨bs, hbs⟩ := mapM_loop_ok f l [] h
  exact ⟨bs, by simpa [List.mapM] using hbs⟩

theorem mapM_loop_comp {α γ β : Type} (f : γ → Except PyErr β) (e : α → γ) :
    ∀ (l : List α) (acc : List β),
      List.mapM.loop f (l.map e) acc = List.mapM.loop (fun a => f (e a)) l acc := by
  intro l
  induction l with
  | nil => intro acc; rfl
  | cons a rest ih =>
    intro acc
    simp only [List.map_cons, List.mapM.loop]
    exact congrArg (fun k => f (e a) >>= k) (funext fun b => ih (b :: acc))

theorem mapM_loop_of_ok {α β : Type} (f : α → Except PyErr β) (g : α → β) :
    ∀ (l : List α) (acc : List β), (∀ a ∈ l, f a = .ok (g a)) →
      List.mapM.loop f l acc = .ok (acc.reverse ++ l.map g) := by
  intro l
  induction l with
  | nil =>
    intro acc _
    simp only [List.mapM.loop, List.map_nil, List.append_nil]
    rfl
  | cons a rest ih =>
    intro acc h
    simp only [List.mapM.loop, h a (by simp), ok_bind]
    rw [ih (g a :: acc) (fun x hx => h x (by simp [hx]))]
    simp

theorem mapM_map_of_ok {α γ β : Type} (f : γ → Except PyErr β) (e : α → γ) (g : α → β)
    (l : List α) (h : ∀ a ∈ l, f (e a) = .ok (g a)) :
    (l.map e).mapM f = .ok (l.map g) := by
  have h2 := mapM_loop_of_ok (fun a => f (e a)) g l [] h
  simpa [List.mapM, mapM_loop_comp] using h2

theorem authors_value_ok (v : Json) (h : authorsOkB v = true) :
    ∃ es, pyIter v = .ok es ∧ ∀ e ∈ es, ∃ r, author_join e = .ok r := by
  cases v with
  | arr entries =>
    refine ⟨entries, rfl, fun e he => ?_⟩
    exact author_join_ok e ((List.all_eq_true.mp (by simpa [authorsOkB] using h)) e he)
  | str s =>
    refine ⟨_, rfl, fun e he => ?_⟩
    obtain ⟨c, _, rfl⟩ := List.mem_map.mp he
    exact author_join_ok _ rfl
  | obj fsv =>
    refine ⟨_, rfl, fun e he => ?_⟩
    obtain ⟨c, _, rfl⟩ := List.mem_map.mp he
    exact author_join_ok _ rfl
  | null => exact Bool.noConfusion h
  | bool b => exact Bool.noConfusion h
  | num n => exact Bool.noConfusion h

/-! Lemmas for the authors join over lists of plain strings. -/

theorem pyStrList_map_str : ∀ (xs : List String), pyStrList (xs.map .str) = .ok xs := by
  intro xs
  induction xs with
  | nil => rfl
  | cons x rest ih => simp only [List.map_cons, pyStrList, ih]; rfl

theorem filter_truthy_map_str (xs : List String) :
    (xs.map Json.str).filter truthy = (xs.filter (fun p => !p.isEmpty)).map Json.str := by
  induction xs with
  | nil => rfl
  | cons x rest ih =>
    simp only [List.map_cons, List.filter_cons, truthy]
    rcases Bool.eq_false_or_eq_true x.isEmpty with hx | hx <;> simp [hx, ih]

theorem author_join_strs (e : List String) :
    author_join (.arr (e.map .str)) =
      .ok (.str (String.intercalate " " (e.filter (fun p => !p.isEmpty)))) := by
  simp only [author_join, pyIter, ok_bind, filter_truthy_map_str, pyJoinSpace,
    pyStrList_map_str]
  rfl

/-! Claim theorems for the Record Normalizer. -/

/-- C1 (amended): clean_record never raises on a raw record whose
present fields are well typed (title, abstract and categories are
strings when present, and the authors_parsed value is iterable with
joinable entries); on such records it returns a fully formed
CleanedRecord with exactly the ten output keys. As stated, with fields
present but null or of unexpected type, the claim fails: see the
counterexample theorem. -/
theorem clean_record_total_on_welltyped (fs : Obj) (h : wellTypedB fs = true) :
    ∃ c, clean_record (.obj fs) = .ok c ∧ c.map Prod.fst = outputKeys := by
  have hh : ((isStrB (pyGetD fs "title" (.str "")) = true ∧
      isStrB (pyGetD fs "abstract" (.str "")) = true) ∧
      isStrB (pyGetD fs "categories" (.str "")) = true) ∧
      authorsOkB (pyGetD fs "authors_parsed" (.arr [])) = true := by
    simpa only [wellTypedB, Bool.and_eq_true] using h
  obtain ⟨⟨⟨h1, h2⟩, h3⟩, h4⟩ := hh
  obtain ⟨t, ht⟩ := pyStripJ_ok h1
  obtain ⟨a, ha⟩ := pyStripJ_ok h2
  obtain ⟨cs, hcs⟩ := pySplitJ_ok h3
  obtain ⟨es, hes, hall⟩ := authors_value_ok _ h4
  obtain ⟨au, hau⟩ := mapM_ok author_join es hall
  refine ⟨mkCleaned (pyGet fs "id") t a cs au (pyGetD fs "versions" (.arr []))
    (pyGet fs "update_date") (pyGet fs "submitter") (pyGet fs "journal-ref")
    (pyGet fs "doi"), ?_, rfl⟩
  simp only [clean_record, ht, ha, hcs, hes, hau, ok_bind]
  rfl

/-- Witness for C1 at a concrete well-typed record. -/
theorem clean_record_total_on_welltyped_witness :
    wellTypedB [("title", Json.str "T"),
      ("authors_parsed", Json.arr [Json.arr [Json.str "Doe", Json.str "J", Json.str ""]])]
      = true ∧
    ∃ c, clean_record (.obj [("title", Json.str "T"),
      ("authors_parsed", Json.arr [Json.arr [Json.str "Doe", Json.str "J", Json.str ""]])])
      = .ok c ∧ c.map Prod.fst = outputKeys :=
  ⟨rfl, clean_record_total_on_welltyped _ rfl⟩

/-- C1 counterexample: a raw record with a present but null title makes
clean_record raise AttributeError (None has no attribute strip), so
clean_record is not total over all JSON-decoded mappings. -/
theorem clean_record_raises_on_null_title :
    clean_record (.obj [("title", Json.null)]) = .error .attributeError := rfl

/-- C2: on every raw record in which all ten source fields are absent,
clean_record returns the fully formed CleanedRecord of documented
defaults: id null, title and abstract empty, categories, authors and
versions empty lists, update_date, submitter, journal_ref and doi null. -/
theorem clean_record_missing_fields_defaults (fs : Obj)
    (h : ∀ k ∈ sourceKeys, getField fs k = none) :
    clean_record (.obj fs) =
      .ok (mkCleaned .null "" "" [] [] (.arr []) .null .null .null .null) := by
  have h1 : pyGet fs "id" = .null := by
    rw [pyGet, h "id" (by simp [sourceKeys])]; rfl
  have h2 : pyGetD fs "title" (.str "") = .str "" := by
    rw [pyGetD, h "title" (by simp [sourceKeys])]; rfl
  have h3 : pyGetD fs "abstract" (.str "") = .str "" := by
    rw [pyGetD, h "abstract" (by simp [sourceKeys])]; rfl
  have h4 : pyGetD fs "categories" (.str "") = .str "" := by
    rw [pyGetD, h "categories" (by simp [sourceKeys])]; rfl
  have h5 : pyGetD fs "authors_parsed" (.arr []) = .arr [] := by
    rw [pyGetD, h "authors_parsed" (by simp [sourceKeys])]; rfl
  have h6 : pyGetD fs "versions" (.arr []) = .arr [] := by
    rw [pyGetD, h "versions" (by simp [sourceKeys])]; rfl
  have h7 : pyGet fs "update_date" = .null := by
    rw [pyGet, h "update_date" (by simp [sourceKeys])]; rfl
  have h8 : pyGet fs "submitter" = .null := by
    rw [pyGet, h "submitter" (by simp [sourceKeys])]; rfl
  have h9 : pyGet fs "journal-ref" = .null := by
    rw [pyGet, h "journal-ref" (by simp [sourceKeys])]; rfl
  have h10 : pyGet fs "doi" = .null := by
    rw [pyGet, h "doi" (by simp [sourceKeys])]; rfl
  simp only [clean_record, h1, h2, h3, h4, h5, h6, h7, h8, h9, h10]
  rfl

/-- Witness for C2 at the empty record. -/
theorem clean_record_missing_fields_defaults_witness :
    (∀ k ∈ sourceKeys, getField ([] : Obj) k = none) ∧
    clean_record (.obj []) =
      .ok (mkCleaned .null "" "" [] [] (.arr []) .null .null .null .null) :=
  ⟨fun _ _ => rfl, clean_record_missing_fields_defaults [] (fun _ _ => rfl)⟩

/-- C8: for every list of authors_parsed entries given as lists of
name-part strings, clean_record builds each author string by joining
the non-empty parts with a single space, dropping the empty parts; in
particular the entry Doe, J, empty yields the author string Doe J. -/
theorem clean_record_author_join_drops_empty (entries : List (List String)) :
    clean_record (.obj [("authors_parsed",
        .arr (entries.map (fun e => .arr (e.map .str))))]) =
      .ok (mkCleaned .null "" "" []
        (entries.map (fun e => .str (String.intercalate " " (e.filter (fun p => !p.isEmpty)))))
        (.arr []) .null .null .null .null) ∧
    clean_record (.obj [("authors_parsed", .arr [.arr [.str "Doe", .str "J", .str ""]])]) =
      .ok (mkCleaned .null "" "" [] [.str "Doe J"] (.arr []) .null .null .null .null) := by
  constructor
  · have hmap := mapM_map_of_ok author_join (fun e => Json.arr (e.map Json.str))
      (fun e => Json.str (String.intercalate " " (e.filter (fun p => !p.isEmpty))))
      entries (fun e _ => author_join_strs e)
    have hap : pyGetD [(("authors_parsed" : String),
        Json.arr (entries.map (fun e => Json.arr (e.map Json.str))))]
        "authors_parsed" (.arr []) =
        Json.arr (entries.map (fun e => Json.arr (e.map Json.str))) := rfl
    simp only [clean_record, hap]
    have h2 : pyGetD [(("authors_parsed" : String),
        Json.arr (entries.map (fun e => Json.arr (e.map Json.str))))]
        "title" (.str "") = .str "" := rfl
    have h3 : pyGetD [(("authors_parsed" : String),
        Json.arr (entries.map (fun e => Json.arr (e.map Json.str))))]
        "abstract" (.str "") = .str "" := rfl
    have h4 : pyGetD [(("authors_parsed" : String),
        Json.arr (entries.map (fun e => Json.arr (e.map Json.str))))]
        "categories" (.str "") = .str "" := rfl
    simp only [h2, h3, h4, pyStripJ, pySplitJ, pyIter, ok_bind, hmap]
    rfl
  · rfl

/-- C10: clean_record reads only the ten source fields: two raw records
agreeing on them produce equal results, and every successful result
carries exactly the ten output keys, so unrelated input keys are
ignored and never appear in the output. -/
theorem clean_record_depends_only_on_source_keys (fs1 fs2 : Obj)
    (h : ∀ k ∈ sourceKeys, getField fs1 k = getField fs2 k) :
    clean_record (.obj fs1) = clean_record (.obj fs2) ∧
    ∀ c, clean_record (.obj fs1) = .ok c → c.map Prod.fst = outputKeys := by
  constructor
  · have h1 := h "id" (by simp [sourceKeys])
    have h2 := h "title" (by simp [sourceKeys])
    have h3 := h "abstract" (by simp [sourceKeys])
    have h4 := h "categories" (by simp [sourceKeys])
    have h5 := h "authors_parsed" (by simp [sourceKeys])
    have h6 := h "versions" (by simp [sourceKeys])
    have h7 := h "update_date" (by simp [sourceKeys])
    have h8 := h "submitter" (by simp [sourceKeys])
    have h9 := h "journal-ref" (by simp [sourceKeys])
    have h10 := h "doi" (by simp [sourceKeys])
    simp only [clean_record, pyGet, pyGetD, h1, h2, h3, h4, h5, h6, h7, h8, h9, h10]
  · exact fun c hc => clean_record_ok_keys hc

/-- Witness for C10: two distinct records agreeing on the ten source
fields map to the same CleanedRecord, with the fixed output keys. -/
theorem clean_record_depends_only_on_source_keys_witness :
    (∀ k ∈ sourceKeys, getField ([(("extra" : String), Json.num 1)]) k =
      getField ([(("other" : String), Json.bool true)]) k) ∧
    (clean_record (.obj [(("extra" : String), Json.num 1)]) =
      clean_record (.obj [(("other" : String), Json.bool true)]) ∧
    ∀ c, clean_record (.obj [(("extra" : String), Json.num 1)]) = .ok c →
      c.map Prod.fst = outputKeys) := by
  have h : ∀ k ∈ sourceKeys, getField ([(("extra" : String), Json.num 1)]) k =
      getField ([(("other" : String), Json.bool true)]) k := by
    intro k hk
    fin_cases hk <;> rfl
  exact ⟨h, clean_record_depends_only_on_source_keys _ _ h⟩

/-! The stream loops in offset-free normal form, used to reason about
start offsets and per-line skipping. -/

/-- The cleaning loop once past the start offset: every remaining line
is handled. -/
def cleanAll (parse : String → Option Json) : List String → List Obj × Nat
  | [] => ([], 0)
  | line :: rest =>
    match parse line with
    | none => cleanAll parse rest
    | some raw =>
      match clean_record raw with
      | .error _ => cleanAll parse rest
      | .ok cleaned =>
        let r := cleanAll parse rest
        (cleaned :: r.1, r.2 + 1)

/-- The ingestion generator once past the start offset. -/
def loadAll (parse : String → Option Json) (parseDate : String → Option String)
    (now : String) : List String → List Obj × Option PyErr
  | [] => ([], none)
  | line :: rest =>
    match parse line with
    | none => loadAll parse parseDate now rest
    | some record =>
      match setItem record "__ingest_timestamp" (.str now) with
      | .error e => ([], some e)
      | .ok rec1 =>
        match normalize_dates parseDate rec1 with
        | .error e => ([], some e)
        | .ok rec2 =>
          let r := loadAll parse parseDate now rest
          (rec2 :: r.1, r.2)

theorem cleanLoop_ge (parse : String → Option Json) (start : Nat) :
    ∀ (lines : List String) (i : Nat), start ≤ i →
      cleanLoop parse start i lines = cleanAll parse lines := by
  intro lines
  induction lines with
  | nil => intro i _; rfl
  | cons l rest ih =>
    intro i h
    have hlt : ¬ i < start := by omega
    simp only [cleanLoop, cleanAll, if_neg hlt]
    cases hp : parse l with
    | none => exact ih (i + 1) (by omega)
    | some raw =>
      dsimp only
      cases hc : clean_record raw with
      | error e => exact ih (i + 1) (by omega)
      | ok cleaned =>
        dsimp only
        rw [ih (i + 1) (by omega)]

theorem cleanLoop_drop (parse : String → Option Json) (start : Nat) :
    ∀ (lines : List String) (i : Nat), i ≤ start →
      cleanLoop parse start i lines = cleanAll parse (lines.drop (start - i)) := by
  intro lines
  induction lines with
  | nil => intro i _; simp only [List.drop_nil]; rfl
  | cons l rest ih =>
    intro i h
    by_cases hlt : i < start
    · have h1 : start - i = (start - (i + 1)) + 1 := by omega
      simp only [cleanLoop, if_pos hlt]
      rw [ih (i + 1) (by omega), h1, List.drop_succ_cons]
    · have hi : i = start := by omega
      subst hi
      have h0 : i - i = 0 := by omega
      rw [h0, List.drop_zero]
      exact cleanLoop_ge parse i (l :: rest) i le_rfl

theorem clean_jsonl_eq_drop (parse : String → Option Json) (lines : List String)
    (start : Nat) : clean_jsonl parse lines start = cleanAll parse (lines.drop start) := by
  have h := cleanLoop_drop parse start lines 0 (by omega)
  simpa [clean_jsonl] using h

theorem loadLoop_ge (parse : String → Option Json) (pd : String → Option String)
    (now : String) (start : Nat) :
    ∀ (lines : List String) (i : Nat), start ≤ i →
      loadLoop parse pd now start i lines = loadAll parse pd now lines := by
  intro lines
  induction lines with
  | nil => intro i _; rfl
  | cons l rest ih =>
    intro i h
    have hlt : ¬ i < start := by omega
    simp only [loadLoop, loadAll, if_neg hlt]
    cases hp : parse l with
    | none => exact ih (i + 1) (by omega)
    | some record =>
      dsimp only
      cases hs : setItem record "__ingest_timestamp" (.str now) with
      | error e => rfl
      | ok rec1 =>
        dsimp only
        cases hn : normalize_dates pd rec1 with
        | error e => rfl
        | ok rec2 =>
          dsimp only
          rw [ih (i + 1) (by omega)]

theorem loadLoop_drop (parse : String → Option Json) (pd : String → Option String)
    (now : String) (start : Nat) :
    ∀ (lines : List String) (i : Nat), i ≤ start →
      loadLoop parse pd now start i lines = loadAll parse pd now (lines.drop (start - i)) := by
  intro lines
  induction lines with
  | nil => intro i _; simp only [List.drop_nil]; rfl
  | cons l rest ih =>
    intro i h
    by_cases hlt : i < start
    · have h1 : start - i = (start - (i + 1)) + 1 := by omega
      simp only [loadLoop, if_pos hlt]
      rw [ih (i + 1) (by omega), h1, List.drop_succ_cons]
    · have hi : i = start := by omega
      subst hi
      have h0 : i - i = 0 := by omega
      rw [h0, List.drop_zero]
      exact loadLoop_ge parse pd now i (l :: rest) i le_rfl

theorem load_jsonl_eq_drop (parse : String → Option Json) (pd : String → Option String)
    (now : String) (lines : List String) (start : Nat) :
    load_jsonl_lines parse pd now lines start = loadAll parse pd now (lines.drop start) := by
  have h := loadLoop_drop parse pd now start lines 0 (by omega)
  simpa [load_jsonl_lines] using h

/-- Whether the cleaning loop skips a line: json.loads fails, or
clean_record raises and the generic handler catches it. -/
def lineSkippedB (parse : String → Option Json) (line : String) : Bool :=
  match parse line with
  | none => true
  | some raw =>
    match clean_record raw with
    | .error _ => true
    | .ok _ => false

/-- The error the ingestion loop body raises on a parsed line, if any:
the timestamp assignment on a non-dict value, or normalize_dates on a
non-iterable versions field. -/
def lineRaises (parseDate : String → Option String) (now : String) (j : Json) : Option PyErr :=
  match setItem j "__ingest_timestamp" (.str now) with
  | .error e => some e
  | .ok rec1 =>
    match normalize_dates parseDate rec1 with
    | .error e => some e
    | .ok _ => none

theorem cleanAll_skip (parse : String → Option Json) (bad : String)
    (h : lineSkippedB parse bad = true) :
    ∀ (pre post : List String),
      cleanAll parse (pre ++ bad :: post) = cleanAll parse (pre ++ post) := by
  intro pre
  induction pre with
  | nil =>
    intro post
    unfold lineSkippedB at h
    cases hp : parse bad with
    | none => simp only [List.nil_append, cleanAll, hp]
    | some raw =>
      rw [hp] at h
      simp only [List.nil_append, cleanAll, hp]
      cases hc : clean_record raw with
      | error e => simp only [hc]
      | ok cleaned => simp only [hc] at h; exact Bool.noConfusion h
  | cons l pre ih =>
    intro post
    simp only [List.cons_append, cleanAll]
    cases hp : parse l with
    | none => exact ih post
    | some raw =>
      cases hc : clean_record raw with
      | error e => simp only [hc]; exact ih post
      | ok cleaned => simp only [hc, List.append_eq, ih post]

theorem loadAll_skip_decode (parse : String → Option Json) (pd : String → Option String)
    (now : String) (bad : String) (h : parse bad = none) :
    ∀ (pre post : List String),
      loadAll parse pd now (pre ++ bad :: post) = loadAll parse pd now (pre ++ post) := by
  intro pre
  induction pre with
  | nil =>
    intro post
    simp only [List.nil_append, loadAll, h]
  | cons l pre ih =>
    intro post
    simp only [List.cons_append, loadAll]
    cases hp : parse l with
    | none => exact ih post
    | some record =>
      cases hs : setItem record "__ingest_timestamp" (.str now) with
      | error e => simp only [hs]
      | ok rec1 =>
        cases hn : normalize_dates pd rec1 with
        | error e => simp only [hs, hn]
        | ok rec2 => simp only [hs, hn, List.append_eq, ih post]

theorem loadAll_stops (parse : String → Option Json) (pd : String → Option String)
    (now : String) (bad : String) (j : Json) (e : PyErr)
    (hb : parse bad = some j) (he : lineRaises pd now j = some e) :
    ∀ (pre post : List String), (loadAll parse pd now pre).2 = none →
      loadAll parse pd now (pre ++ bad :: post) =
        ((loadAll parse pd now pre).1, some e) := by
  intro pre
  induction pre with
  | nil =>
    intro post _
    unfold lineRaises at he
    simp only [List.nil_append, loadAll, hb]
    cases hs : setItem j "__ingest_timestamp" (.str now) with
    | error e2 =>
      rw [hs] at he
      simp only at he
      injection he with he
      simp only [hs, he]
    | ok rec1 =>
      rw [hs] at he
      simp only at he
      cases hn : normalize_dates pd rec1 with
      | error e2 =>
        rw [hn] at he
        simp only at he
        injection he with he
        simp only [hs, hn, he]
      | ok rec2 =>
        rw [hn] at he
        simp only at he
        exact Option.noConfusion he
  | cons l pre ih =>
    intro post htail
    simp only [loadAll] at htail
    simp only [List.cons_append, loadAll]
    cases hp : parse l with
    | none =>
      rw [hp] at htail
      simp only at htail
      exact ih post htail
    | some record =>
      rw [hp] at htail
      simp only at htail
      cases hs : setItem record "__ingest_timestamp" (.str now) with
      | error e2 =>
        rw [hs] at htail
        simp only at htail
        exact Option.noConfusion htail
      | ok rec1 =>
        rw [hs] at htail
        simp only at htail
        cases hn : normalize_dates pd rec1 with
        | error e2 =>
          rw [hn] at htail
          simp only at htail
          exact Option.noConfusion htail
        | ok rec2 =>
          rw [hn] at htail
          simp only at htail
          simp only [hs, hn, List.append_eq, ih post htail]

/-! Concrete records produced by the demo parser, used below. -/

/-- Cleaned form of the record on line A. -/
def cleanedA : Obj := mkCleaned (.str "a1") "" "" [] [] (.arr []) .null .null .null .null

/-- Cleaned form of the record on line B: the cleaning stage leaves the
RFC-2822 created date untouched. -/
def cleanedB : Obj := mkCleaned (.str "b2") "" "" [] []
  (.arr [.obj [("version", .str "v1"), ("created", .str "Mon, 2 Jan 2023 10:00:00 GMT")]])
  .null .null .null .null

/-- Ingested form of the record on line A. -/
def ingestedA : Obj := [("id", .str "a1"), ("__ingest_timestamp", .str "T")]

/-- Ingested form of the record on line B: created date normalized to
ISO-8601 and the ingest timestamp appended. -/
def ingestedB : Obj := [("id", .str "b2"), ("versions",
  .arr [.obj [("version", .str "v1"), ("created", .str "2023-01-02T10:00:00+00:00")]]),
  ("__ingest_timestamp", .str "T")]

/-- C4 counterexample: in load_jsonl_lines a bad line that parses as
JSON but raises later (here the line N, a bare number, whose item
assignment raises TypeError) terminates the stream: the subsequent
valid line B is not yielded, although without the bad line it is. This
contradicts the claim that any per-line error of either reader is
caught and skipped with all subsequent valid lines still processed. -/
theorem load_jsonl_lines_stops_on_bad_line :
    load_jsonl_lines demoParse demoDate "T" ["A", "N", "B"] 0 =
      ([ingestedA], some .typeError) ∧
    load_jsonl_lines demoParse demoDate "T" ["A", "B"] 0 =
      ([ingestedA, ingestedB], none) := ⟨rfl, rfl⟩

/-- C4 (amended): a line that fails JSON parsing is skipped by both
readers without affecting the records of the other lines or the
processed counter. In clean_jsonl every other per-line error is likewise
caught and skipped. In load_jsonl_lines, however, only JSON decode
failures are caught: a parsed line whose processing raises (a non-dict
line, or a record whose versions value is not iterable) terminates the
stream with that error, dropping all later lines and the final batch
flush. -/
theorem line_errors_skipped_amended (parse : String → Option Json)
    (pd : String → Option String) (now : String) (pre post : List String)
    (bad : String) (j : Json) (e : PyErr) :
    (lineSkippedB parse bad = true →
      clean_jsonl parse (pre ++ bad :: post) 0 = clean_jsonl parse (pre ++ post) 0) ∧
    (parse bad = none →
      load_jsonl_lines parse pd now (pre ++ bad :: post) 0 =
        load_jsonl_lines parse pd now (pre ++ post) 0) ∧
    ((load_jsonl_lines parse pd now pre 0).2 = none → parse bad = some j →
      lineRaises pd now j = some e →
      load_jsonl_lines parse pd now (pre ++ bad :: post) 0 =
        ((load_jsonl_lines parse pd now pre 0).1, some e)) := by
  refine ⟨?_, ?_, ?_⟩
  · intro hskip
    rw [clean_jsonl_eq_drop, clean_jsonl_eq_drop, List.drop_zero, List.drop_zero]
    exact cleanAll_skip parse bad hskip pre post
  · intro hdec
    rw [load_jsonl_eq_drop, load_jsonl_eq_drop, List.drop_zero, List.drop_zero]
    exact loadAll_skip_decode parse pd now bad hdec pre post
  · intro htail hb he
    simp only [load_jsonl_eq_drop, List.drop_zero] at htail ⊢
    exact loadAll_stops parse pd now bad j e hb he pre post htail

/-- Witness for C4 at concrete inputs: the bad line N is skipped by the
cleaning stage (clean_record raises on a non-dict and the handler
catches it), the undecodable line X is skipped by the ingestion reader,
and the line N terminates the ingestion reader with a TypeError. -/
theorem line_errors_skipped_amended_witness :
    (lineSkippedB demoParse "N" = true ∧
      clean_jsonl demoParse ["A", "N", "B"] 0 = clean_jsonl demoParse ["A", "B"] 0) ∧
    (demoParse "X" = none ∧
      load_jsonl_lines demoParse demoDate "T" ["A", "X", "B"] 0 =
        load_jsonl_lines demoParse demoDate "T" ["A", "B"] 0) ∧
    (lineRaises demoDate "T" (.num 5) = some .typeError ∧
      load_jsonl_lines demoParse demoDate "T" ["A", "N", "B"] 0 =
        ((load_jsonl_lines demoParse demoDate "T" ["A"] 0).1, some .typeError)) :=
  ⟨⟨rfl, (line_errors_skipped_amended demoParse demoDate "T" ["A"] ["B"] "N"
      (.num 5) .typeError).1 rfl⟩,
   ⟨rfl, (line_errors_skipped_amended demoParse demoDate "T" ["A"] ["B"] "X"
      (.num 5) .typeError).2.1 rfl⟩,
   ⟨rfl, (line_errors_skipped_amended demoParse demoDate "T" ["A"] ["B"] "N"
      (.num 5) .typeError).2.2 rfl rfl rfl⟩⟩

/-- C7: both line-stream readers skip the lines before the start offset
without parsing them: a run from offset start equals a run from offset
zero over the remaining lines, so the result never depends on the
skipped lines; concretely, a five-line input whose first two lines are
malformed yields with start_line 2 exactly the three records of the
remaining lines, in original order, in both readers. -/
theorem line_stream_reader_offset (parse : String → Option Json)
    (pd : String → Option String) (now : String) (lines lines1 lines2 : List String)
    (start : Nat) (h : lines1.drop start = lines2.drop start) :
    clean_jsonl parse lines start = clean_jsonl parse (lines.drop start) 0 ∧
    load_jsonl_lines parse pd now lines start =
      load_jsonl_lines parse pd now (lines.drop start) 0 ∧
    clean_jsonl parse lines1 start = clean_jsonl parse lines2 start ∧
    load_jsonl_lines parse pd now lines1 start = load_jsonl_lines parse pd now lines2 start ∧
    clean_jsonl demoParse ["X", "Y", "A", "B", "A"] 2 = ([cleanedA, cleanedB, cleanedA], 3) ∧
    load_jsonl_lines demoParse demoDate "T" ["X", "Y", "A", "B", "A"] 2 =
      ([ingestedA, ingestedB, ingestedA], none) := by
  refine ⟨?_, ?_, ?_, ?_, rfl, rfl⟩
  · rw [clean_jsonl_eq_drop, clean_jsonl_eq_drop, List.drop_zero]
  · rw [load_jsonl_eq_drop, load_jsonl_eq_drop, List.drop_zero]
  · rw [clean_jsonl_eq_drop, clean_jsonl_eq_drop, h]
  · rw [load_jsonl_eq_drop, load_jsonl_eq_drop, h]

/-- Witness for C7: two inputs differing only before the offset. -/
theorem line_stream_reader_offset_witness :
    (["X", "A"].drop 1 = ["Y", "A"].drop 1) ∧
    (clean_jsonl demoParse ["X", "A"] 1 = clean_jsonl demoParse (["X", "A"].drop 1) 0 ∧
     load_jsonl_lines demoParse demoDate "T" ["X", "A"] 1 =
       load_jsonl_lines demoParse demoDate "T" (["X", "A"].drop 1) 0 ∧
     clean_jsonl demoParse ["X", "A"] 1 = clean_jsonl demoParse ["Y", "A"] 1 ∧
     load_jsonl_lines demoParse demoDate "T" ["X", "A"] 1 =
       load_jsonl_lines demoParse demoDate "T" ["Y", "A"] 1 ∧
     clean_jsonl demoParse ["X", "Y", "A", "B", "A"] 2 = ([cleanedA, cleanedB, cleanedA], 3) ∧
     load_jsonl_lines demoParse demoDate "T" ["X", "Y", "A", "B", "A"] 2 =
       ([ingestedA, ingestedB, ingestedA], none)) :=
  ⟨rfl, line_stream_reader_offset demoParse demoDate "T" ["X", "A"] ["X", "A"] ["Y", "A"] 1 rfl⟩

/-- C9: the cleaning stage is deterministic: two runs over the same
parser, the same input lines and the same start offset write byte
identical output files. The embedding of clean_jsonl is a pure function
of these three inputs: the stage involves no clock, no randomness and
no external state, and json.dump serializes equal records to equal
bytes. -/
theorem cleaning_deterministic (parse1 parse2 : String → Option Json)
    (lines1 lines2 : List String) (s1 s2 : Nat)
    (hp : parse1 = parse2) (hl : lines1 = lines2) (hs : s1 = s2) :
    cleanOutput parse1 lines1 s1 = cleanOutput parse2 lines2 s2 := by
  rw [hp, hl, hs]

/-- Witness for C9: two runs over line A produce the same bytes. -/
theorem cleaning_deterministic_witness :
    (demoParse = demoParse ∧ (["A"] : List String) = ["A"] ∧ (0 : Nat) = 0) ∧
    cleanOutput demoParse ["A"] 0 = cleanOutput demoParse ["A"] 0 :=
  ⟨⟨rfl, rfl, rfl⟩, cleaning_deterministic demoParse demoParse ["A"] ["A"] 0 0 rfl rfl rfl⟩

/-- The serialized bytes of one cleaning run match the json.dump text
format, including the newline per record. -/
example : cleanOutput demoParse ["A"] 0 =
    "\x7b\"id\": \"a1\", \"title\": \"\", \"abstract\": \"\", \"categories\": [], " ++
    "\"authors\": [], \"versions\": [], \"update_date\": null, \"submitter\": null, " ++
    "\"journal_ref\": null, \"doi\": null\x7d\n" := by rfl

/-! Frame lemmas for setField. -/

theorem getField_map_set_ne (k k2 : String) (v : Json) (h : k2 ≠ k) :
    ∀ (fs : Obj),
      getField (fs.map (fun p => if p.1 = k then (p.1, v) else p)) k2 = getField fs k2 := by
  intro fs
  induction fs with
  | nil => rfl
  | cons p rest ih =>
    have hk : ¬ k = k2 := fun hh => h hh.symm
    simp only [List.map_cons, getField, ih]
    cases hg : getField rest k2 with
    | some w => rfl
    | none =>
      by_cases hpk : p.1 = k
      · simp [hpk, hk]
      · simp [hpk]

theorem getField_append_single_ne (k k2 : String) (v : Json) (h : k2 ≠ k) :
    ∀ (fs : Obj), getField (fs ++ [(k, v)]) k2 = getField fs k2 := by
  intro fs
  induction fs with
  | nil =>
    simp only [List.nil_append, getField]
    have hne : ¬ k = k2 := fun hh => h hh.symm
    simp [hne]
  | cons p rest ih => simp only [List.cons_append, getField, List.append_eq, ih]

theorem getField_setField_ne (fs : Obj) (k k2 : String) (v : Json) (h : k2 ≠ k) :
    getField (setField fs k v) k2 = getField fs k2 := by
  unfold setField
  by_cases hs : (getField fs k).isSome
  · rw [if_pos hs]; exact getField_map_set_ne k k2 v h fs
  · rw [if_neg hs]; exact getField_append_single_ne k k2 v h fs

theorem getField_map_set_self (k : String) (v : Json) :
    ∀ (fs : Obj),
      getField (fs.map (fun p => if p.1 = k then (p.1, v) else p)) k =
        if (getField fs k).isSome then some v else none := by
  intro fs
  induction fs with
  | nil => rfl
  | cons p rest ih =>
    simp only [List.map_cons, getField, ih]
    by_cases hs : (getField rest k).isSome = true
    · obtain ⟨w, hw⟩ := Option.isSome_iff_exists.mp hs
      simp [hw]
    · have hw : getField rest k = none := by
        cases hg : getField rest k with
        | none => rfl
        | some w => rw [hg] at hs; exact absurd rfl hs
      by_cases hpk : p.1 = k
      · simp [hw, hpk]
      · simp [hw, hpk]

theorem getField_setField_self (fs : Obj) (k : String) (v : Json)
    (h : (getField fs k).isSome = true) : getField (setField fs k v) k = some v := by
  unfold setField
  rw [if_pos h, getField_map_set_self k v fs, if_pos h]

/-! The Date Normalizer claim. -/

/-- Spec-side contract for one entry of the versions list, written from
the spec: a dict entry whose created field is a string has that field
overwritten in place with the reparsed date; on parse failure the entry
is left untouched; entries with a non-string or absent created field,
and non-dict entries, are left unchanged. -/
def EntrySpec (parseDate : String → Option String) (v vout : Json) : Prop :=
  match v with
  | .obj fv =>
    match getField fv "created" with
    | some (.str s) =>
      match parseDate s with
      | some iso => vout = .obj (setField fv "created" (.str iso))
      | none => vout = v
    | _ => vout = v
  | _ => vout = v

theorem entrySpec_normalize (pd : String → Option String) (v : Json) :
    EntrySpec pd v (normalize_entry pd v) := by
  cases v with
  | obj fv =>
    cases hc : getField fv "created" with
    | none => simp only [EntrySpec, normalize_entry, hc]
    | some c =>
      cases c with
      | str s =>
        cases hp : pd s with
        | none => simp only [EntrySpec, normalize_entry, hc, hp]
        | some iso => simp only [EntrySpec, normalize_entry, hc, hp]
      | null => simp only [EntrySpec, normalize_entry, hc]
      | bool b => simp only [EntrySpec, normalize_entry, hc]
      | num n => simp only [EntrySpec, normalize_entry, hc]
      | arr xs => simp only [EntrySpec, normalize_entry, hc]
      | obj fs2 => simp only [EntrySpec, normalize_entry, hc]
  | null => exact rfl
  | bool b => exact rfl
  | num n => exact rfl
  | str s => exact rfl
  | arr xs => exact rfl

theorem forall2_map_self {α : Type} {R : α → α → Prop} {f : α → α}
    (h : ∀ a, R a (f a)) : ∀ (l : List α), List.Forall₂ R l (l.map f) := by
  intro l
  induction l with
  | nil => exact List.Forall₂.nil
  | cons a rest ih => exact List.Forall₂.cons (h a) ih

/-- C5 (amended): for every record whose versions field is absent the
Date Normalizer returns it unchanged; for every record whose versions
field is a list, it returns without raising a record whose other fields
are untouched and whose versions entries each satisfy the per-entry
contract: a string created field is rewritten in place to the reparsed
date, a failed parse leaves the entry untouched, and non-string or
absent created fields are left unchanged; concretely the RFC-2822 date
of the spec example is rewritten to its ISO-8601 form. As stated, over
every record, the claim fails: a non-iterable versions value raises,
see the counterexample theorem. -/
theorem normalize_dates_spec (pd : String → Option String) (record : Obj) :
    (getField record "versions" = none → normalize_dates pd record = .ok record) ∧
    (∀ vs, getField record "versions" = some (.arr vs) →
      ∃ out, normalize_dates pd record = .ok out ∧
        (∀ k, k ≠ "versions" → getField out k = getField record k) ∧
        ∃ vs2, getField out "versions" = some (.arr vs2) ∧
          List.Forall₂ (EntrySpec pd) vs vs2) ∧
    normalize_dates demoDate
      [("versions", .arr [.obj [("version", .str "v1"),
        ("created", .str "Mon, 2 Jan 2023 10:00:00 GMT")]])] =
      .ok [("versions", .arr [.obj [("version", .str "v1"),
        ("created", .str "2023-01-02T10:00:00+00:00")]])] := by
  refine ⟨?_, ?_, rfl⟩
  · intro h
    simp only [normalize_dates, h]
  · intro vs h
    refine ⟨setField record "versions" (.arr (vs.map (normalize_entry pd))), ?_, ?_, ?_⟩
    · simp only [normalize_dates, h]
    · intro k hk
      exact getField_setField_ne record "versions" k _ hk
    · refine ⟨vs.map (normalize_entry pd), ?_,
        forall2_map_self (entrySpec_normalize pd) vs⟩
      exact getField_setField_self record "versions" _ (by rw [h]; rfl)

/-- Witness for C5 at a concrete record with one rewritable entry, one
entry whose date fails to parse, and one non-dict entry. -/
theorem normalize_dates_spec_witness :
    getField [(("id" : String), Json.str "x"), ("versions",
      Json.arr [.obj [("created", .str "Mon, 2 Jan 2023 10:00:00 GMT")],
        .obj [("created", .str "garbage")], .num 7])] "versions" =
      some (.arr [.obj [("created", .str "Mon, 2 Jan 2023 10:00:00 GMT")],
        .obj [("created", .str "garbage")], .num 7]) ∧
    ∃ out, normalize_dates demoDate [(("id" : String), Json.str "x"), ("versions",
        Json.arr [.obj [("created", .str "Mon, 2 Jan 2023 10:00:00 GMT")],
          .obj [("created", .str "garbage")], .num 7])] = .ok out ∧
      (∀ k, k ≠ "versions" → getField out k =
        getField [(("id" : String), Json.str "x"), ("versions",
          Json.arr [.obj [("created", .str "Mon, 2 Jan 2023 10:00:00 GMT")],
            .obj [("created", .str "garbage")], .num 7])] k) ∧
      ∃ vs2, getField out "versions" = some (.arr vs2) ∧
        List.Forall₂ (EntrySpec demoDate)
          [.obj [("created", .str "Mon, 2 Jan 2023 10:00:00 GMT")],
            .obj [("created", .str "garbage")], .num 7] vs2 :=
  ⟨rfl, (normalize_dates_spec demoDate _).2.1 _ rfl⟩

/-- C5 counterexample: a record whose versions field is null (hence not
iterable) makes normalize_dates raise a TypeError out of the function,
because the for statement over the versions value sits outside the try
handler; so the Date Normalizer does not continue without raising on
every record. -/
theorem normalize_dates_raises_on_null_versions :
    normalize_dates demoDate [("versions", Json.null)] = .error .typeError := rfl

/-! The Batch Accumulator claims. -/

theorem runBatchesGo_flatten {α : Type} (B : Int) :
    ∀ (rs acc : List α), (runBatchesGo B acc rs).flatten = acc ++ rs := by
  intro rs
  induction rs with
  | nil =>
    intro acc
    simp only [runBatchesGo]
    by_cases h : acc.isEmpty = true
    · rw [if_pos h]
      simp [List.isEmpty_iff.mp h]
    · rw [if_neg h]
      simp
  | cons r rest ih =>
    intro acc
    simp only [runBatchesGo]
    by_cases h : B ≤ ((acc ++ [r]).length : Int)
    · rw [if_pos h]
      simp [List.flatten, ih]
    · rw [if_neg h]
      rw [ih]
      simp

theorem runBatchesGo_sizes {α : Type} (B : Int) (hB : 1 ≤ B) :
    ∀ (rs acc : List α), ((acc.length : Int) < B) →
      runBatchesGo B acc rs = [] ∨
      ∃ bs b, runBatchesGo B acc rs = bs ++ [b] ∧
        (∀ x ∈ bs, (x.length : Int) = B) ∧ 0 < b.length ∧ (b.length : Int) ≤ B := by
  intro rs
  induction rs with
  | nil =>
    intro acc hacc
    by_cases h : acc.isEmpty = true
    · left
      simp [runBatchesGo, h]
    · right
      refine ⟨[], acc, ?_, by simp, ?_, le_of_lt hacc⟩
      · simp [runBatchesGo, h]
      · rcases acc with _ | ⟨a, as⟩
        · exact absurd rfl h
        · simp
  | cons r rest ih =>
    intro acc hacc
    by_cases h : B ≤ ((acc ++ [r]).length : Int)
    · have hlen : ((acc ++ [r]).length : Int) = B := by
        simp only [List.length_append, List.length_singleton] at h ⊢
        push_cast at h hacc ⊢
        omega
      rcases ih [] (by simpa using hB) with h0 | ⟨bs, b, heq, hbs, hb0, hbB⟩
      · right
        refine ⟨[], acc ++ [r], ?_, by simp, by simp, le_of_eq hlen⟩
        simp only [runBatchesGo]
        rw [if_pos h, h0]
        rfl
      · right
        refine ⟨(acc ++ [r]) :: bs, b, ?_, ?_, hb0, hbB⟩
        · simp only [runBatchesGo]
          rw [if_pos h, heq]
          rfl
        · intro x hx
          rcases List.mem_cons.mp hx with rfl | hx2
          · exact hlen
          · exact hbs x hx2
    · have hlt : ((acc ++ [r]).length : Int) < B := not_le.mp h
      simp only [runBatchesGo, if_neg h]
      exact ih (acc ++ [r]) hlt

/-- C6: for every positive batch size B, the batching loop of main
emits batches whose concatenation is the input sequence in order, every
batch except possibly the last has exactly B records, each batch is
nonempty with at most B records, and in particular any 2500 records
with batch size 1000 yield exactly three batches of sizes 1000, 1000
and 500. -/
theorem batch_accumulator_correct {α : Type} (xs : List α) (B : Int) (hB : 1 ≤ B) :
    (runBatches xs B).flatten = xs ∧
    (∀ b ∈ (runBatches xs B).dropLast, (b.length : Int) = B) ∧
    (∀ b ∈ runBatches xs B, 0 < b.length ∧ (b.length : Int) ≤ B) ∧
    (xs.length = 2500 → B = 1000 →
      (runBatches xs B).map List.length = [1000, 1000, 500]) := by
  have hjoin : (runBatches xs B).flatten = xs := by
    simpa [runBatches] using runBatchesGo_flatten B xs []
  rcases runBatchesGo_sizes B hB xs [] (by simpa using hB) with hempty | hfull
  · refine ⟨hjoin, ?_, ?_, ?_⟩
    · intro b hb
      rw [runBatches, hempty] at hb
      exact absurd hb (by simp)
    · intro b hb
      rw [runBatches, hempty] at hb
      exact absurd hb (by simp)
    · intro h2500 hB1000
      exfalso
      rw [runBatches, hempty] at hjoin
      rw [← hjoin] at h2500
      simp at h2500
  · obtain ⟨bs, b, heq, hbs, hb0, hbB⟩ := hfull
    refine ⟨hjoin, ?_, ?_, ?_⟩
    · intro x hx
      rw [runBatches, heq, List.dropLast_concat] at hx
      exact hbs x hx
    · intro x hx
      rw [runBatches, heq] at hx
      rcases List.mem_append.mp hx with hx1 | hx2
      · have hxB := hbs x hx1
        constructor
        · have : (0 : Int) < x.length := by rw [hxB]; omega
          exact_mod_cast this
        · exact le_of_eq hxB
      · rcases List.mem_singleton.mp hx2 with rfl
        exact ⟨hb0, hbB⟩
    · intro h2500 hB1000
      subst hB1000
      have hl : ((bs ++ [b]).map List.length).sum = 2500 := by
        rw [← List.length_flatten]
        rw [runBatches, heq] at hjoin
        rw [hjoin, h2500]
      have hbs1000 : ∀ x ∈ bs.map List.length, x = 1000 := by
        intro x hx
        obtain ⟨y, hy, rfl⟩ := List.mem_map.mp hx
        exact_mod_cast hbs y hy
      have hrep : bs.map List.length = List.replicate bs.length 1000 := by
        have := List.eq_replicate_of_mem hbs1000
        simpa using this
      have hblen : b.length ≤ 1000 := by exact_mod_cast hbB
      rw [List.map_append, List.sum_append, hrep] at hl
      simp only [List.map_cons, List.map_nil, List.sum_cons, List.sum_nil,
        List.sum_replicate, smul_eq_mul] at hl
      have hn : bs.length = 2 ∧ b.length = 500 := by omega
      rw [runBatches, heq, List.map_append, hrep, hn.1]
      simp only [List.map_cons, List.map_nil, hn.2]
      rfl

/-- Witness for C6 at three records and batch size two. -/
theorem batch_accumulator_correct_witness :
    (1 : Int) ≤ 2 ∧
    ((runBatches ([0, 1, 2] : List Nat) (2 : Int)).flatten = [0, 1, 2] ∧
     (∀ b ∈ (runBatches ([0, 1, 2] : List Nat) (2 : Int)).dropLast, (b.length : Int) = 2) ∧
     (∀ b ∈ runBatches ([0, 1, 2] : List Nat) (2 : Int),
       0 < b.length ∧ (b.length : Int) ≤ 2) ∧
     (([0, 1, 2] : List Nat).length = 2500 → (2 : Int) = 1000 →
       (runBatches ([0, 1, 2] : List Nat) (2 : Int)).map List.length = [1000, 1000, 500])) :=
  ⟨by norm_num, batch_accumulator_correct [0, 1, 2] 2 (by norm_num)⟩

/-- C3 is a code bug: main validates batch_size nowhere. An ingestion
run invoked with batch_size 0 does not abort before processing: here a
two-line input is fully read and bulk-written as two singleton batches,
because the flush condition len(batch) >= batch_size holds after every
append. The claim that such a run performs no record writes is false of
the code. -/
theorem ingest_batch_size_zero_writes :
    ingest_writes demoParse demoDate "T" ["A", "A"] 0 0 =
      ([[ingestedA], [ingestedA]], none) := rfl
